import Mathlib

/-!
Verification of the bin-packing core of binpacker-algo3.py.

The source operates on a pandas DataFrame with columns TruckNumber,
BundleNumber, GrossWeight, NettWeight; we embed a row as an `Item` and the
frame as a `List Item`.  Weights are integers (`Int`), truck and bundle
numbers are naturals.  The multi-key `sort_values` of pandas is a stable
lexicographic sort; it is embedded as a stable insertion sort on the two
keys.  The mutable parallel lists `bins`, `bin_weights_gross`,
`bin_weights_nett`, `bin_items_count` (all indexed by the same bin index)
are embedded as a single `List BinState`; the dictionary `truck_bins` as a
function `Nat → Option Nat`; the dictionary lookup of line 72, which would
raise `KeyError` on a missing index, returns an `Option`.
-/

/-- One input record: the four required columns of the uploaded table. -/
structure Item where
  truckNumber : Nat
  bundleNumber : Nat
  grossWeight : Int
  nettWeight : Int
deriving DecidableEq

/-- The state of one bin: the item indices placed in it (in placement
order) together with its running gross total, nett total and item count
(the entries of the four parallel lists of lines 11 to 14). -/
structure BinState where
  items : List Nat
  gross : Int
  nett : Int
  count : Nat
deriving DecidableEq

/-- The default used for (provably in-range) list lookups. -/
def emptyBin : BinState := ⟨[], 0, 0, 0⟩

/-- The loop state: the bins created so far and the truck-to-bin map of
line 16. -/
structure PackState where
  bins : List BinState
  truck_bins : Nat → Option Nat

/-- The sort-key order of line 9: ascending TruckNumber, then descending
GrossWeight. -/
def sortLE (a b : Item) : Prop :=
  a.truckNumber < b.truckNumber ∨
    (a.truckNumber = b.truckNumber ∧ b.grossWeight ≤ a.grossWeight)

instance : DecidableRel sortLE := fun a b => by
  unfold sortLE; exact inferInstance

instance : IsTotal Item sortLE := by
  constructor; intro a b; unfold sortLE; omega

instance : IsTrans Item sortLE := by
  constructor; intro a b c hab hbc; unfold sortLE at *; omega

/-- The same order on position-tagged items, with the original position as
a final tie-break: sorting by this order is exactly a stable sort by
`sortLE`. -/
def keyLE (p q : Nat × Item) : Prop :=
  p.2.truckNumber < q.2.truckNumber ∨
    (p.2.truckNumber = q.2.truckNumber ∧
      (q.2.grossWeight < p.2.grossWeight ∨
        (p.2.grossWeight = q.2.grossWeight ∧ p.1 ≤ q.1)))

instance : DecidableRel keyLE := fun p q => by
  unfold keyLE; exact inferInstance

instance : IsTotal (Nat × Item) keyLE := by
  constructor; intro a b; unfold keyLE; omega

instance : IsTrans (Nat × Item) keyLE := by
  constructor; intro a b c hab hbc; unfold keyLE at *; omega

/-- Line 9: sort by TruckNumber ascending then GrossWeight descending
(stable), resetting the index so that loop indices are positions in the
sorted order. -/
def sorted_df (df : List Item) : List Item :=
  df.insertionSort sortLE

/-- The two acceptance conditions of lines 29 and 30 (also lines 40 and
41): adding the item's gross weight stays within `maxW` and the item count
is below `maxC`. -/
def canAccept (maxW w : Int) (maxC : Nat) (b : BinState) : Prop :=
  b.gross + w ≤ maxW ∧ b.count < maxC

instance (maxW w : Int) (maxC : Nat) (b : BinState) :
    Decidable (canAccept maxW w maxC b) := by
  unfold canAccept; exact inferInstance

/-- Comparison with the running minimum of line 31, `none` standing for
the initial infinity of line 24. -/
def ltInf (r : Int) : Option Int → Prop
  | none => True
  | some m => r < m

instance (r : Int) : (o : Option Int) → Decidable (ltInf r o)
  | none => Decidable.isTrue True.intro
  | some m => inferInstanceAs (Decidable (r < m))

/-- Lines 26 to 34: the best-fit scan over the existing bins, carrying the
position of the best bin found so far and its remaining space (both `none`
at the start). -/
def bestFitLoop (maxW w : Int) (maxC : Nat) :
    List BinState → Nat → Option Nat × Option Int → Option Nat × Option Int
  | [], _, acc => acc
  | b :: rest, i, acc =>
      bestFitLoop maxW w maxC rest (i + 1)
        (if canAccept maxW w maxC b ∧ ltInf (maxW - b.gross) acc.2
         then (some i, some (maxW - b.gross)) else acc)

/-- Lines 22 to 34: the best-fit bin for an item of gross weight `w`, if
any bin is a candidate. -/
def best_fit_bin (maxW w : Int) (maxC : Nat) (bins : List BinState) : Option Nat :=
  (bestFitLoop maxW w maxC bins 0 (none, none)).1

/-- Lines 43 to 46 and 51 to 54: append the item index to a bin and update
its running totals and count. -/
def addToBin (b : BinState) (index : Nat) (row : Item) : BinState :=
  { items := b.items ++ [index]
    gross := b.gross + row.grossWeight
    nett := b.nett + row.nettWeight
    count := b.count + 1 }

/-- Lines 18 to 64: the body of the placement loop for one row of the
sorted table.  The best-fit bin is computed first (lines 22 to 34); the
affinity bin of the row's truck is used when it exists and can accept the
row (lines 36 to 47, leaving the truck map unchanged); otherwise the
best-fit bin is used and recorded as the truck's bin (lines 49 to 56);
otherwise a new bin is created and recorded (lines 58 to 64). -/
def placeItem (maxW : Int) (maxC : Nat) (st : PackState) (index : Nat) (row : Item) :
    PackState :=
  let best := best_fit_bin maxW row.grossWeight maxC st.bins
  let affinity : Option Nat :=
    match st.truck_bins row.truckNumber with
    | some bin_idx =>
        if canAccept maxW row.grossWeight maxC (st.bins.getD bin_idx emptyBin)
        then some bin_idx else none
    | none => none
  match affinity with
  | some bin_idx =>
      { st with
        bins := st.bins.set bin_idx (addToBin (st.bins.getD bin_idx emptyBin) index row) }
  | none =>
      match best with
      | some j =>
          { bins := st.bins.set j (addToBin (st.bins.getD j emptyBin) index row)
            truck_bins := fun t => if t = row.truckNumber then some j else st.truck_bins t }
      | none =>
          { bins := st.bins ++ [⟨[index], row.grossWeight, row.nettWeight, 1⟩]
            truck_bins := fun t =>
              if t = row.truckNumber then some st.bins.length else st.truck_bins t }

/-- Line 18: the loop over the rows of the sorted table, `index` counting
positions from the reset index. -/
def packLoop (maxW : Int) (maxC : Nat) : PackState → Nat → List Item → PackState
  | st, _, [] => st
  | st, index, row :: rest =>
      packLoop maxW maxC (placeItem maxW maxC st index row) (index + 1) rest

/-- The initial state: no bins, empty truck dictionary. -/
def initState : PackState := ⟨[], fun _ => none⟩

/-- Lines 8 to 64: sort, then place every row. -/
def runPack (df : List Item) (maxW : Int) (maxC : Nat) : PackState :=
  packLoop maxW maxC initState 0 (sorted_df df)

/-- Lines 66 to 70: the index-to-bin-number dictionary, bin numbers
starting at 1 in creation order. -/
def bin_assignment (bins : List BinState) : Nat → Option Nat :=
  bins.enum.foldl
    (fun m p => p.2.items.foldl
      (fun m idx => fun j => if j = idx then some (p.1 + 1) else m j) m)
    (fun _ => none)

/-- Line 72: annotate each row of the sorted table with its bin number; a
missing dictionary entry (which would be a KeyError) is `none`. -/
def packed_df (df : List Item) (maxW : Int) (maxC : Nat) : List (Item × Option Nat) :=
  (sorted_df df).enum.map
    (fun p => (p.2, bin_assignment (runPack df maxW maxC).bins p.1))

/-- One row of the summary table of lines 74 to 83. -/
structure SummaryRow where
  bin : Nat
  totalGross : Int
  totalNett : Int
  itemsCount : Nat
  belowMin : Bool
deriving DecidableEq

/-- Lines 74 to 83: the bin summary table, one row per bin in creation
order, with the below-minimum-weight flag of line 83. -/
def bin_summary (bins : List BinState) (min_bin_weight : Int) : List SummaryRow :=
  bins.enum.map (fun p =>
    ⟨p.1 + 1, p.2.gross, p.2.nett, p.2.count, decide (p.2.gross < min_bin_weight)⟩)

/-- Lines 7 to 85: the whole function, returning the annotated sorted
table and the summary table. -/
def pack_bins_optimized (df : List Item) (max_bin_weight min_bin_weight : Int)
    (max_items_per_bin : Nat) : List (Item × Option Nat) × List SummaryRow :=
  (packed_df df max_bin_weight max_items_per_bin,
   bin_summary (runPack df max_bin_weight max_items_per_bin).bins min_bin_weight)

/-- The new-bin record of lines 60 to 63. -/
def newBin (index : Nat) (row : Item) : BinState :=
  ⟨[index], row.grossWeight, row.nettWeight, 1⟩

/-- The default used for item lookups at (provably in-range) indices. -/
def dummyItem : Item := ⟨0, 0, 0, 0⟩

/-- The invariant maintained by the placement loop: after the first `k`
rows of the sorted table `s` have been placed, every recorded truck bin
exists, each bin's count and totals agree with its item list, the placed
indices are exactly `0, ..., k-1` with no repetition, no bin exceeds the
item-count limit, any bin over the weight limit is a singleton, and no
bin is empty. -/
structure PackInv (maxW : Int) (maxC : Nat) (s : List Item) (k : Nat) (st : PackState) :
    Prop where
  tb_lt : ∀ t b, st.truck_bins t = some b → b < st.bins.length
  count_eq : ∀ b ∈ st.bins, b.count = b.items.length
  gross_eq : ∀ b ∈ st.bins,
    b.gross = (b.items.map (fun i => (s.getD i dummyItem).grossWeight)).sum
  nett_eq : ∀ b ∈ st.bins,
    b.nett = (b.items.map (fun i => (s.getD i dummyItem).nettWeight)).sum
  mem_lt : ∀ b ∈ st.bins, ∀ i ∈ b.items, i < k
  flat_perm : ((st.bins.map BinState.items).flatten).Perm (List.range k)
  count_le : ∀ b ∈ st.bins, b.count ≤ maxC
  cap_or_single : ∀ b ∈ st.bins, b.gross ≤ maxW ∨ b.items.length = 1
  bin_nonempty : ∀ b ∈ st.bins, b.items ≠ []

/-- The loop state after the first `k` rows of the sorted table have been
placed (the whole run when `k` is the number of rows). -/
def packPrefix (df : List Item) (maxW : Int) (maxC : Nat) (k : Nat) : PackState :=
  packLoop maxW maxC initState 0 ((sorted_df df).take k)


/-! ### Characterisation of the best-fit scan -/

/-- The worked scenario of the specification: two group-A items of gross
weights 20000 and 8000 and one group-B item of gross weight 15000 (truck
A encoded as 0, truck B as 1; nett weights 0). -/
def scenarioItems : List Item :=
  [⟨0, 1, 20000, 0⟩, ⟨0, 2, 8000, 0⟩, ⟨1, 3, 15000, 0⟩]

theorem ltInf_some_iff {r m : Int} : ltInf r (some m) ↔ r < m := Iff.rfl

theorem ltInf_of_lt_of_ltInf {r s : Int} {o : Option Int} (h1 : r < s)
    (h2 : ltInf s o) : ltInf r o := by
  cases o with
  | none => exact True.intro
  | some m => exact lt_trans h1 h2

theorem ltInf_resolve {r s : Int} {o : Option Int} (h1 : ltInf r o)
    (h2 : ¬ ltInf s o) : r < s := by
  cases o with
  | none => exact absurd True.intro h2
  | some m =>
      rw [ltInf_some_iff] at h1
      rw [ltInf_some_iff] at h2
      omega

/-- Full characterisation of the scan of lines 26 to 34, for any starting
accumulator: either no bin in the scanned list strictly improves on the
accumulator and it is returned unchanged, or the result names the earliest
bin among those that can accept the item and have minimal remaining
space (strictly better than the accumulator). -/
theorem bestFitLoop_spec (maxW w : Int) (maxC : Nat) (l : List BinState) :
    ∀ (i : Nat) (acc : Option Nat × Option Int),
      (bestFitLoop maxW w maxC l i acc = acc ∧
        ∀ m, (h : m < l.length) → canAccept maxW w maxC l[m] →
          ¬ ltInf (maxW - l[m].gross) acc.2) ∨
      (∃ m, ∃ h : m < l.length,
        canAccept maxW w maxC l[m] ∧
        bestFitLoop maxW w maxC l i acc = (some (i + m), some (maxW - l[m].gross)) ∧
        ltInf (maxW - l[m].gross) acc.2 ∧
        (∀ m2, (h2 : m2 < l.length) → canAccept maxW w maxC l[m2] →
          maxW - l[m].gross ≤ maxW - l[m2].gross) ∧
        (∀ m2, (h2 : m2 < l.length) → canAccept maxW w maxC l[m2] →
          maxW - l[m2].gross = maxW - l[m].gross → m ≤ m2)) := by
  induction l with
  | nil =>
      intro i acc
      left
      refine ⟨rfl, ?_⟩
      intro m h
      exact absurd h (by simp)
  | cons b rest ih =>
      intro i acc
      by_cases hc : canAccept maxW w maxC b ∧ ltInf (maxW - b.gross) acc.2
      · have hstep : bestFitLoop maxW w maxC (b :: rest) i acc =
            bestFitLoop maxW w maxC rest (i + 1) (some i, some (maxW - b.gross)) := by
          rw [bestFitLoop, if_pos hc]
        rcases ih (i + 1) (some i, some (maxW - b.gross)) with
          ⟨hres, hnone⟩ | ⟨m, h, hcan, hres, hlt, hmin, htie⟩
        · right
          refine ⟨0, Nat.succ_pos _, hc.1, ?_, hc.2, ?_, ?_⟩
          · rw [hstep, hres]
            simp
          · intro m2 h2 hca
            cases m2 with
            | zero => simp
            | succ m2 =>
                simp only [List.getElem_cons_succ] at hca ⊢
                have hm2 : m2 < rest.length := by simpa using h2
                have hx := hnone m2 hm2 hca
                simp only [List.getElem_cons_zero]
                have hx2 : ¬ (maxW - rest[m2].gross < maxW - b.gross) := hx
                omega
          · intro m2 h2 hca hq
            exact Nat.zero_le _
        · right
          refine ⟨m + 1, Nat.succ_lt_succ h, by simpa using hcan, ?_, ?_, ?_, ?_⟩
          · rw [hstep, hres]
            simp only [List.getElem_cons_succ, Prod.mk.injEq, Option.some.injEq]
            exact ⟨by omega, trivial⟩
          · simp only [List.getElem_cons_succ]
            exact ltInf_of_lt_of_ltInf (ltInf_some_iff.mp hlt) hc.2
          · intro m2 h2 hca
            cases m2 with
            | zero =>
                simp only [List.getElem_cons_succ, List.getElem_cons_zero] at hca ⊢
                have := ltInf_some_iff.mp hlt
                omega
            | succ m2 =>
                simp only [List.getElem_cons_succ] at hca ⊢
                exact hmin m2 (by simpa using h2) hca
          · intro m2 h2 hca hq
            cases m2 with
            | zero =>
                simp only [List.getElem_cons_succ, List.getElem_cons_zero] at hca hq
                have := ltInf_some_iff.mp hlt
                omega
            | succ m2 =>
                simp only [List.getElem_cons_succ] at hca hq
                exact Nat.succ_le_succ (htie m2 (by simpa using h2) hca hq)
      · have hstep : bestFitLoop maxW w maxC (b :: rest) i acc =
            bestFitLoop maxW w maxC rest (i + 1) acc := by
          rw [bestFitLoop, if_neg hc]
        rcases ih (i + 1) acc with ⟨hres, hnone⟩ | ⟨m, h, hcan, hres, hlt, hmin, htie⟩
        · left
          refine ⟨by rw [hstep, hres], ?_⟩
          intro m hm hca
          cases m with
          | zero =>
              intro hlt0
              exact hc ⟨by simpa using hca, by simpa using hlt0⟩
          | succ m =>
              simp only [List.getElem_cons_succ] at hca ⊢
              exact hnone m (by simpa using hm) hca
        · right
          refine ⟨m + 1, Nat.succ_lt_succ h, by simpa using hcan, ?_, ?_, ?_, ?_⟩
          · rw [hstep, hres]
            simp only [List.getElem_cons_succ, Prod.mk.injEq, Option.some.injEq]
            exact ⟨by omega, trivial⟩
          · simpa using hlt
          · intro m2 h2 hca
            cases m2 with
            | zero =>
                simp only [List.getElem_cons_succ, List.getElem_cons_zero] at hca ⊢
                have hnb : ¬ ltInf (maxW - b.gross) acc.2 := fun hx => hc ⟨hca, hx⟩
                have := ltInf_resolve hlt hnb
                omega
            | succ m2 =>
                simp only [List.getElem_cons_succ] at hca ⊢
                exact hmin m2 (by simpa using h2) hca
          · intro m2 h2 hca hq
            cases m2 with
            | zero =>
                simp only [List.getElem_cons_succ, List.getElem_cons_zero] at hca hq
                have hnb : ¬ ltInf (maxW - b.gross) acc.2 := fun hx => hc ⟨hca, hx⟩
                have := ltInf_resolve hlt hnb
                omega
            | succ m2 =>
                simp only [List.getElem_cons_succ] at hca hq
                exact Nat.succ_le_succ (htie m2 (by simpa using h2) hca hq)

/-- If the best-fit scan finds nothing, no existing bin can accept the
item. -/
theorem best_fit_bin_eq_none (maxW w : Int) (maxC : Nat) (bins : List BinState)
    (hnone : best_fit_bin maxW w maxC bins = none) :
    ∀ m, (h : m < bins.length) → ¬ canAccept maxW w maxC bins[m] := by
  intro m h hca
  rcases bestFitLoop_spec maxW w maxC bins 0 (none, none) with
    ⟨hres, hn⟩ | ⟨m', h', hcan, hres, hrest⟩
  · exact hn m h hca True.intro
  · rw [best_fit_bin, hres] at hnone
    simp at hnone

/-- If the best-fit scan returns a bin, that bin can accept the item, has
the smallest remaining space among bins that can, and is the earliest
among ties. -/
theorem best_fit_bin_eq_some (maxW w : Int) (maxC : Nat) (bins : List BinState) (j : Nat)
    (hj : best_fit_bin maxW w maxC bins = some j) :
    ∃ h : j < bins.length, canAccept maxW w maxC bins[j] ∧
      (∀ m, (hm : m < bins.length) → canAccept maxW w maxC bins[m] →
        maxW - bins[j].gross ≤ maxW - bins[m].gross) ∧
      (∀ m, (hm : m < bins.length) → canAccept maxW w maxC bins[m] →
        maxW - bins[m].gross = maxW - bins[j].gross → j ≤ m) := by
  rcases bestFitLoop_spec maxW w maxC bins 0 (none, none) with
    ⟨hres, hn⟩ | ⟨m, h, hcan, hres, hlt, hmin, htie⟩
  · rw [best_fit_bin, hres] at hj
    cases hj
  · rw [best_fit_bin, hres] at hj
    simp only [Option.some.injEq, Nat.zero_add] at hj
    subst hj
    exact ⟨h, hcan, hmin, htie⟩

/-! ### Case analysis of one placement step -/

/-- One placement has exactly three outcomes, in this priority order: the
truck's affinity bin when it can accept the row; else the best-fit bin
when the scan found one (recording it for the truck); else a fresh bin
(recording it for the truck). -/
theorem placeItem_cases (maxW : Int) (maxC : Nat) (st : PackState) (index : Nat) (row : Item) :
    (∃ b, st.truck_bins row.truckNumber = some b ∧
      canAccept maxW row.grossWeight maxC (st.bins.getD b emptyBin) ∧
      placeItem maxW maxC st index row =
        { st with bins := st.bins.set b (addToBin (st.bins.getD b emptyBin) index row) }) ∨
    (∃ j, best_fit_bin maxW row.grossWeight maxC st.bins = some j ∧
      (∀ b, st.truck_bins row.truckNumber = some b →
        ¬ canAccept maxW row.grossWeight maxC (st.bins.getD b emptyBin)) ∧
      placeItem maxW maxC st index row =
        { bins := st.bins.set j (addToBin (st.bins.getD j emptyBin) index row)
          truck_bins := fun t => if t = row.truckNumber then some j else st.truck_bins t }) ∨
    (best_fit_bin maxW row.grossWeight maxC st.bins = none ∧
      (∀ b, st.truck_bins row.truckNumber = some b →
        ¬ canAccept maxW row.grossWeight maxC (st.bins.getD b emptyBin)) ∧
      placeItem maxW maxC st index row =
        { bins := st.bins ++ [newBin index row]
          truck_bins := fun t =>
            if t = row.truckNumber then some st.bins.length else st.truck_bins t }) := by
  cases htb : st.truck_bins row.truckNumber with
  | some b =>
      by_cases hca : canAccept maxW row.grossWeight maxC (st.bins.getD b emptyBin)
      · left
        refine ⟨b, rfl, hca, ?_⟩
        have hca2 := hca
        rw [List.getD_eq_getElem?_getD] at hca2
        simp [placeItem, htb, hca2]
      · cases hbf : best_fit_bin maxW row.grossWeight maxC st.bins with
        | some j =>
            right; left
            refine ⟨j, rfl, ?_, ?_⟩
            · intro b2 hb2
              cases hb2
              exact hca
            · have hca2 := hca
              rw [List.getD_eq_getElem?_getD] at hca2
              simp [placeItem, htb, hca2, hbf]
        | none =>
            right; right
            refine ⟨rfl, ?_, ?_⟩
            · intro b2 hb2
              cases hb2
              exact hca
            · have hca2 := hca
              rw [List.getD_eq_getElem?_getD] at hca2
              simp [placeItem, htb, hca2, hbf, newBin]
  | none =>
      cases hbf : best_fit_bin maxW row.grossWeight maxC st.bins with
      | some j =>
          right; left
          refine ⟨j, rfl, ?_, ?_⟩
          · intro b2 hb2
            cases hb2
          · simp [placeItem, htb, hbf]
      | none =>
          right; right
          refine ⟨rfl, ?_, ?_⟩
          · intro b2 hb2
            cases hb2
          · simp [placeItem, htb, hbf, newBin]

/-! ### The loop invariant -/

/-- Extending the bin at position `j` with a new index `k` only adds `k`
to the multiset of placed indices. -/
theorem flatten_map_set_perm (l : List BinState) (j k : Nat) (hj : j < l.length)
    (x : BinState) (hx : x.items = l[j].items ++ [k]) :
    ((l.set j x).map BinState.items).flatten.Perm
      (k :: (l.map BinState.items).flatten) := by
  have hdecomp : l = l.take j ++ l[j] :: l.drop (j + 1) := by
    conv_lhs => rw [← List.take_append_drop j l]
    rw [List.drop_eq_getElem_cons hj]
  rw [List.set_eq_take_cons_drop x hj]
  conv_rhs => rw [hdecomp]
  simp only [List.map_append, List.map_cons, List.flatten_append, List.flatten_cons, hx,
    List.append_assoc]
  have hp := @List.perm_middle _ k
    (((l.take j).map BinState.items).flatten ++ l[j].items)
    (((l.drop (j + 1)).map BinState.items).flatten)
  simpa using hp

/-- The invariant holds before any row is placed. -/
theorem packInv_init (maxW : Int) (maxC : Nat) (s : List Item) :
    PackInv maxW maxC s 0 initState := by
  constructor <;> simp [initState]

/-- Placing a row into an existing bin that can accept it preserves the
invariant, for any new truck map whose entries are in range. -/
theorem PackInv.addStep {maxW : Int} {maxC : Nat} {s : List Item} {k : Nat}
    {st : PackState} (inv : PackInv maxW maxC s k st) {row : Item}
    (hrow : row = s.getD k dummyItem) {b : Nat} (hb : b < st.bins.length)
    (hacc : canAccept maxW row.grossWeight maxC st.bins[b])
    (tb' : Nat → Option Nat) (htb' : ∀ t j, tb' t = some j → j < st.bins.length) :
    PackInv maxW maxC s (k + 1)
      ⟨st.bins.set b (addToBin st.bins[b] k row), tb'⟩ := by
  have hmem : ∀ b2 ∈ st.bins.set b (addToBin st.bins[b] k row),
      b2 ∈ st.bins ∨ b2 = addToBin st.bins[b] k row := fun b2 h =>
    List.mem_or_eq_of_mem_set h
  have hbmem : st.bins[b] ∈ st.bins := List.getElem_mem hb
  constructor
  · intro t j hj
    have := htb' t j hj
    simpa using this
  · intro b2 h2
    rcases hmem b2 h2 with h | h
    · exact inv.count_eq b2 h
    · subst h
      simp [addToBin, inv.count_eq st.bins[b] hbmem]
  · intro b2 h2
    rcases hmem b2 h2 with h | h
    · exact inv.gross_eq b2 h
    · subst h
      simp [addToBin, inv.gross_eq st.bins[b] hbmem, hrow]
  · intro b2 h2
    rcases hmem b2 h2 with h | h
    · exact inv.nett_eq b2 h
    · subst h
      simp [addToBin, inv.nett_eq st.bins[b] hbmem, hrow]
  · intro b2 h2 i hi
    rcases hmem b2 h2 with h | h
    · exact Nat.lt_succ_of_lt (inv.mem_lt b2 h i hi)
    · subst h
      simp only [addToBin, List.mem_append, List.mem_singleton] at hi
      rcases hi with hi | hi
      · exact Nat.lt_succ_of_lt (inv.mem_lt st.bins[b] hbmem i hi)
      · omega
  · have h1 := flatten_map_set_perm st.bins b k hb (addToBin st.bins[b] k row)
      (by simp [addToBin])
    have h2 := (inv.flat_perm.cons k)
    have h3 : (k :: List.range k).Perm (List.range (k + 1)) := by
      rw [List.range_succ]
      have hm := (@List.perm_middle _ k (List.range k) ([] : List Nat)).symm
      simpa using hm
    exact (h1.trans h2).trans h3
  · intro b2 h2
    rcases hmem b2 h2 with h | h
    · exact inv.count_le b2 h
    · subst h
      have := hacc.2
      simp only [addToBin]
      omega
  · intro b2 h2
    rcases hmem b2 h2 with h | h
    · exact inv.cap_or_single b2 h
    · subst h
      left
      have := hacc.1
      simp only [addToBin]
      omega
  · intro b2 h2
    rcases hmem b2 h2 with h | h
    · exact inv.bin_nonempty b2 h
    · subst h
      simp [addToBin]

/-- Creating a fresh bin for the row preserves the invariant, for any new
truck map whose entries are in range of the extended bin list. -/
theorem PackInv.newStep {maxW : Int} {maxC : Nat} {s : List Item} {k : Nat}
    {st : PackState} (inv : PackInv maxW maxC s k st) {row : Item}
    (hrow : row = s.getD k dummyItem) (hC : 1 ≤ maxC)
    (tb' : Nat → Option Nat) (htb' : ∀ t j, tb' t = some j → j < st.bins.length + 1) :
    PackInv maxW maxC s (k + 1) ⟨st.bins ++ [newBin k row], tb'⟩ := by
  have hmem : ∀ b2 ∈ st.bins ++ [newBin k row], b2 ∈ st.bins ∨ b2 = newBin k row := by
    intro b2 h
    rcases List.mem_append.mp h with h | h
    · exact Or.inl h
    · exact Or.inr (List.mem_singleton.mp h)
  constructor
  · intro t j hj
    have := htb' t j hj
    simpa using this
  · intro b2 h2
    rcases hmem b2 h2 with h | h
    · exact inv.count_eq b2 h
    · subst h
      simp [newBin]
  · intro b2 h2
    rcases hmem b2 h2 with h | h
    · exact inv.gross_eq b2 h
    · subst h
      simp [newBin, hrow]
  · intro b2 h2
    rcases hmem b2 h2 with h | h
    · exact inv.nett_eq b2 h
    · subst h
      simp [newBin, hrow]
  · intro b2 h2 i hi
    rcases hmem b2 h2 with h | h
    · exact Nat.lt_succ_of_lt (inv.mem_lt b2 h i hi)
    · subst h
      simp only [newBin, List.mem_singleton] at hi
      omega
  · have : ((st.bins ++ [newBin k row]).map BinState.items).flatten =
        (st.bins.map BinState.items).flatten ++ [k] := by
      simp [newBin]
    rw [this, List.range_succ]
    exact inv.flat_perm.append_right [k]
  · intro b2 h2
    rcases hmem b2 h2 with h | h
    · exact inv.count_le b2 h
    · subst h
      simpa [newBin] using hC
  · intro b2 h2
    rcases hmem b2 h2 with h | h
    · exact inv.cap_or_single b2 h
    · subst h
      right
      simp [newBin]
  · intro b2 h2
    rcases hmem b2 h2 with h | h
    · exact inv.bin_nonempty b2 h
    · subst h
      simp [newBin]

/-- One placement step preserves the invariant. -/
theorem placeItem_inv (maxW : Int) (maxC : Nat) (s : List Item) (k : Nat) (st : PackState)
    (hC : 1 ≤ maxC) (row : Item) (hrow : row = s.getD k dummyItem)
    (inv : PackInv maxW maxC s k st) :
    PackInv maxW maxC s (k + 1) (placeItem maxW maxC st k row) := by
  rcases placeItem_cases maxW maxC st k row with
    ⟨b, htb, hca, heq⟩ | ⟨j, hbf, hnaff, heq⟩ | ⟨hbf, hnaff, heq⟩
  · rw [heq]
    have hb : b < st.bins.length := inv.tb_lt _ _ htb
    have hgd : st.bins.getD b emptyBin = st.bins[b] := List.getD_eq_getElem _ _ hb
    rw [hgd] at hca ⊢
    exact inv.addStep hrow hb hca st.truck_bins (fun t j hj => inv.tb_lt t j hj)
  · rw [heq]
    obtain ⟨hj, hca, hmin, htie⟩ := best_fit_bin_eq_some _ _ _ _ _ hbf
    have hgd : st.bins.getD j emptyBin = st.bins[j] := List.getD_eq_getElem _ _ hj
    rw [hgd]
    refine inv.addStep hrow hj hca _ ?_
    intro t j2 hj2
    by_cases ht : t = row.truckNumber
    · simp only [ht, if_pos] at hj2
      cases hj2
      exact hj
    · simp only [if_neg ht] at hj2
      exact inv.tb_lt t j2 hj2
  · rw [heq]
    refine inv.newStep hrow hC _ ?_
    intro t j2 hj2
    by_cases ht : t = row.truckNumber
    · simp only [ht, if_pos] at hj2
      cases hj2
      omega
    · simp only [if_neg ht] at hj2
      exact Nat.lt_succ_of_lt (inv.tb_lt t j2 hj2)

/-- The invariant is preserved by the rest of the loop, provided the rows
still to be processed are the rows of `s` at the matching positions. -/
theorem packLoop_inv (maxW : Int) (maxC : Nat) (hC : 1 ≤ maxC) (s : List Item)
    (l : List Item) :
    ∀ (k : Nat) (st : PackState),
      (∀ m, (hm : m < l.length) → l[m] = s.getD (k + m) dummyItem) →
      PackInv maxW maxC s k st →
      PackInv maxW maxC s (k + l.length) (packLoop maxW maxC st k l) := by
  induction l with
  | nil =>
      intro k st halign inv
      simpa [packLoop] using inv
  | cons row rest ih =>
      intro k st halign inv
      have hrow : row = s.getD k dummyItem := by
        have := halign 0 (by simp)
        simpa using this
      have inv' := placeItem_inv maxW maxC s k st hC row hrow inv
      have halign' : ∀ m, (hm : m < rest.length) →
          rest[m] = s.getD (k + 1 + m) dummyItem := by
        intro m hm
        have := halign (m + 1) (by simpa using Nat.succ_lt_succ hm)
        simp only [List.getElem_cons_succ] at this
        rw [this]
        congr 1
        omega
      have hres := ih (k + 1) (placeItem maxW maxC st k row) halign' inv'
      have hkk : k + (row :: rest).length = k + 1 + rest.length := by
        simp only [List.length_cons]
        omega
      rw [hkk]
      exact hres

/-- The invariant holds at every step of the loop. -/
theorem packPrefix_inv (df : List Item) (maxW : Int) (maxC : Nat) (hC : 1 ≤ maxC)
    (k : Nat) (hk : k ≤ (sorted_df df).length) :
    PackInv maxW maxC (sorted_df df) k (packPrefix df maxW maxC k) := by
  have halign : ∀ m, (hm : m < ((sorted_df df).take k).length) →
      ((sorted_df df).take k)[m] = (sorted_df df).getD (0 + m) dummyItem := by
    intro m hm
    have hm2 : m < (sorted_df df).length := by
      simp only [List.length_take] at hm
      omega
    rw [List.getElem_take]
    have h0 : 0 + m < (sorted_df df).length := by omega
    rw [List.getD_eq_getElem _ _ h0]
    simp
  have hmain := packLoop_inv maxW maxC hC (sorted_df df) ((sorted_df df).take k) 0
    initState halign (packInv_init maxW maxC (sorted_df df))
  rw [packPrefix]
  have hlen : (0 : Nat) + ((sorted_df df).take k).length = k := by
    simp only [List.length_take]
    omega
  rw [hlen] at hmain
  exact hmain

/-- The full run is the prefix run at full length. -/
theorem runPack_eq_packPrefix (df : List Item) (maxW : Int) (maxC : Nat) :
    runPack df maxW maxC = packPrefix df maxW maxC (sorted_df df).length := by
  rw [runPack, packPrefix, List.take_length]

/-- The invariant holds of the final state. -/
theorem runPack_inv (df : List Item) (maxW : Int) (maxC : Nat) (hC : 1 ≤ maxC) :
    PackInv maxW maxC (sorted_df df) (sorted_df df).length (runPack df maxW maxC) := by
  rw [runPack_eq_packPrefix]
  exact packPrefix_inv df maxW maxC hC _ le_rfl

/-! ### The assignment dictionary of lines 66 to 72 -/

/-- Writing a value at every index of a list into a finite map: the result
reads back the value exactly on members of the list. -/
theorem dict_write_fold (v : Option Nat) (is : List Nat) :
    ∀ (m : Nat → Option Nat) (idx : Nat),
      is.foldl (fun m i => fun j => if j = i then v else m j) m idx =
        if idx ∈ is then v else m idx := by
  induction is with
  | nil =>
      intro m idx
      simp
  | cons i rest ih =>
      intro m idx
      rw [List.foldl_cons, ih]
      by_cases hmem : idx ∈ rest
      · simp [hmem]
      · by_cases hidx : idx = i
        · simp [hmem, hidx]
        · simp [hmem, hidx]

/-- The outer dictionary loop leaves indices assigned to no scanned bin
untouched. -/
theorem assign_fold_none (l : List (Nat × BinState)) :
    ∀ (m : Nat → Option Nat) (idx : Nat), (∀ p ∈ l, idx ∉ p.2.items) →
      l.foldl (fun m p => p.2.items.foldl
          (fun m i => fun j => if j = i then some (p.1 + 1) else m j) m) m idx = m idx := by
  induction l with
  | nil =>
      intro m idx h
      rfl
  | cons p rest ih =>
      intro m idx h
      rw [List.foldl_cons, ih _ idx (fun q hq => h q (List.mem_cons_of_mem p hq))]
      rw [dict_write_fold]
      simp [h p (List.mem_cons_self p rest)]

/-- The outer dictionary loop assigns a bin number to every index that
occurs in some scanned bin. -/
theorem assign_fold_some (l : List (Nat × BinState)) :
    ∀ (m : Nat → Option Nat) (idx : Nat), (∃ p ∈ l, idx ∈ p.2.items) →
      ∃ v, l.foldl (fun m p => p.2.items.foldl
          (fun m i => fun j => if j = i then some (p.1 + 1) else m j) m) m idx = some v := by
  induction l with
  | nil =>
      intro m idx h
      simp at h
  | cons p rest ih =>
      intro m idx h
      rw [List.foldl_cons]
      by_cases hr : ∃ q ∈ rest, idx ∈ q.2.items
      · exact ih _ idx hr
      · have hp : idx ∈ p.2.items := by
          rcases h with ⟨q, hq, hqi⟩
          rcases List.mem_cons.mp hq with rfl | hq2
          · exact hqi
          · exact absurd ⟨q, hq2, hqi⟩ hr
        push_neg at hr
        refine ⟨p.1 + 1, ?_⟩
        rw [assign_fold_none rest _ idx hr, dict_write_fold]
        simp [hp]

/-- Every index placed in some bin receives a bin number. -/
theorem bin_assignment_isSome (bins : List BinState) (idx : Nat)
    (h : ∃ b ∈ bins, idx ∈ b.items) :
    ∃ v, bin_assignment bins idx = some v := by
  rcases h with ⟨b, hb, hbi⟩
  rcases List.mem_iff_getElem.mp hb with ⟨i, hi, rfl⟩
  have hmem : (i, bins[i]) ∈ bins.enum := by
    simp [List.mk_mem_enum_iff_getElem?, List.getElem?_eq_getElem hi]
  exact assign_fold_some bins.enum _ idx ⟨(i, bins[i]), hmem, hbi⟩

/-! ### Stability of the pre-sort -/

/-- Inserting a position-tagged item whose tag is smaller than every tag
in the list commutes with dropping the tags: on such lists the tie-break
order and the plain key order agree. -/
theorem map_snd_orderedInsert (n : Nat) (a : Item) (l : List (Nat × Item))
    (hl : ∀ p ∈ l, n < p.1) :
    (l.orderedInsert keyLE (n, a)).map Prod.snd =
      (l.map Prod.snd).orderedInsert sortLE a := by
  induction l with
  | nil => rfl
  | cons p rest ih =>
      have hkey : keyLE (n, a) p ↔ sortLE a p.2 := by
        have := hl p (List.mem_cons_self _ _)
        unfold keyLE sortLE
        dsimp only
        omega
      simp only [List.orderedInsert, List.map_cons]
      by_cases hc : sortLE a p.2
      · rw [if_pos (hkey.mpr hc), if_pos hc]
        simp
      · rw [if_neg (fun hx => hc (hkey.mp hx)), if_neg hc]
        simp only [List.map_cons, List.cons.injEq, true_and]
        exact ih (fun q hq => hl q (List.mem_cons_of_mem p hq))

/-- Sorting the position-tagged list by the tie-break order and dropping
the tags is the same as sorting by the key order: the insertion sort of
line 9 is stable. -/
theorem map_snd_insertionSort_enumFrom (l : List Item) :
    ∀ n : Nat, ((List.enumFrom n l).insertionSort keyLE).map Prod.snd =
      l.insertionSort sortLE := by
  induction l with
  | nil => intro n; rfl
  | cons a rest ih =>
      intro n
      show ((List.insertionSort keyLE ((n, a) :: List.enumFrom (n + 1) rest)).map Prod.snd) = _
      simp only [List.insertionSort]
      rw [map_snd_orderedInsert n a _ ?bound, ih (n + 1)]
      case bound =>
        intro p hp
        have hp2 : p ∈ List.enumFrom (n + 1) rest :=
          (List.perm_insertionSort keyLE _).subset hp
        have := (List.mem_enumFrom hp2).1
        omega

/-! ### The claims -/

/-- C9: Empty input - with no items and any precondition-satisfying
configuration, pack_bins_optimized creates no bins and returns an empty
annotated table and an empty summary table. -/
theorem C9_empty_input (maxW minW : Int) (maxC : Nat)
    (hW : 0 < maxW) (hC : 1 ≤ maxC) (hm : 0 ≤ minW) :
    pack_bins_optimized [] maxW minW maxC = ([], []) ∧
    (runPack [] maxW maxC).bins = [] :=
  ⟨rfl, rfl⟩

/-- Witness for C9 at the default configuration. -/
theorem C9_empty_input_witness :
    (0 : Int) < 26500 ∧ (1 ≤ 10) ∧ (0 : Int) ≤ 18000 ∧
    (pack_bins_optimized [] 26500 18000 10 = ([], []) ∧
      (runPack [] 26500 10).bins = []) :=
  ⟨by decide, by decide, by decide,
    C9_empty_input 26500 18000 10 (by decide) (by decide) (by decide)⟩

/-- C7 counterexample: in the worked scenario the summary flags are
false for both bins (bin 1 holds 20000, which is not below 18000), so the
claimed flags, true for bin 1 and false for bin 2, are wrong. -/
theorem C7_scenario_counterexample :
    ¬ ((pack_bins_optimized scenarioItems 26500 18000 10).2.map SummaryRow.belowMin
        = [true, false]) := by
  decide

/-- C7 amended: the scenario yields exactly two bins, bin 1 holding only
the first item with gross total 20000 and below-min flag false, bin 2
holding the other two items with gross total 23000 and below-min flag
false. -/
theorem C7_scenario_amended :
    pack_bins_optimized scenarioItems 26500 18000 10 =
      ([(⟨0, 1, 20000, 0⟩, some 1), (⟨0, 2, 8000, 0⟩, some 2), (⟨1, 3, 15000, 0⟩, some 2)],
       [⟨1, 20000, 0, 1, false⟩, ⟨2, 23000, 0, 2, false⟩]) := by
  decide

/-- C6: Pre-sort order and stability - the processing order is a
permutation of the input, sorted by ascending truck number and then
descending gross weight, and the sort is stable: tagging every item with
its input position and sorting by the key order extended with the
position tie-break yields exactly the processing order (so two items
equal on both keys keep their input order). -/
theorem C6_presort_stable (df : List Item) :
    (sorted_df df).Perm df ∧
    List.Sorted sortLE (sorted_df df) ∧
    ((df.enum.insertionSort keyLE).map Prod.snd = sorted_df df) ∧
    List.Sorted keyLE (df.enum.insertionSort keyLE) :=
  ⟨List.perm_insertionSort sortLE df, List.sorted_insertionSort sortLE df,
    map_snd_insertionSort_enumFrom df 0, List.sorted_insertionSort keyLE df.enum⟩

/-- C5: Below-min flag - every summary row's flag holds exactly when its
gross total is strictly below min_bin_weight; and the flag is only
informational: the annotated table and the number of summary rows do not
depend on min_bin_weight at all. -/
theorem C5_below_min_flag (df : List Item) (maxW minW minW2 : Int) (maxC : Nat)
    (hW : 0 < maxW) (hC : 1 ≤ maxC) (hm : 0 ≤ minW) :
    (∀ row ∈ (pack_bins_optimized df maxW minW maxC).2,
      row.belowMin = true ↔ row.totalGross < minW) ∧
    (pack_bins_optimized df maxW minW maxC).1 =
      (pack_bins_optimized df maxW minW2 maxC).1 ∧
    (pack_bins_optimized df maxW minW maxC).2.length =
      (pack_bins_optimized df maxW minW2 maxC).2.length := by
  refine ⟨?_, rfl, by simp [pack_bins_optimized, bin_summary]⟩
  intro row hrow
  simp only [pack_bins_optimized, bin_summary, List.mem_map] at hrow
  rcases hrow with ⟨p, hp, rfl⟩
  simp

/-- Witness for C5 at the worked scenario, comparing two minimum weights. -/
theorem C5_below_min_flag_witness :
    (0 : Int) < 26500 ∧ (1 ≤ 10) ∧ (0 : Int) ≤ 18000 ∧
    ((∀ row ∈ (pack_bins_optimized scenarioItems 26500 18000 10).2,
        row.belowMin = true ↔ row.totalGross < 18000) ∧
      (pack_bins_optimized scenarioItems 26500 18000 10).1 =
        (pack_bins_optimized scenarioItems 26500 5 10).1 ∧
      (pack_bins_optimized scenarioItems 26500 18000 10).2.length =
        (pack_bins_optimized scenarioItems 26500 5 10).2.length) :=
  ⟨by decide, by decide, by decide,
    C5_below_min_flag scenarioItems 26500 18000 5 10 (by decide) (by decide) (by decide)⟩

/-- C10: Output row order and bin numbering - the annotated table lists
the items in the sorted processing order (the original input positions
having been discarded by the index reset), the summary's bin numbers are
1, 2, ... in bin-creation order, and every created bin holds at least one
item. -/
theorem C10_output_order (df : List Item) (maxW minW : Int) (maxC : Nat)
    (hW : 0 < maxW) (hC : 1 ≤ maxC) (hm : 0 ≤ minW) :
    ((pack_bins_optimized df maxW minW maxC).1.map Prod.fst = sorted_df df) ∧
    ((pack_bins_optimized df maxW minW maxC).2.map SummaryRow.bin =
      (List.range (runPack df maxW maxC).bins.length).map (fun k => k + 1)) ∧
    (∀ b ∈ (runPack df maxW maxC).bins, b.items ≠ []) := by
  refine ⟨?_, ?_, (runPack_inv df maxW maxC hC).bin_nonempty⟩
  · simp only [pack_bins_optimized, packed_df, List.map_map]
    have : (Prod.fst ∘ fun p : Nat × Item =>
        (p.2, bin_assignment (runPack df maxW maxC).bins p.1)) = Prod.snd := rfl
    rw [this, List.enum_map_snd]
  · simp only [pack_bins_optimized, bin_summary, List.map_map]
    rw [← List.enum_map_fst ((runPack df maxW maxC).bins), List.map_map]
    rfl

/-- Witness for C10 at the worked scenario. -/
theorem C10_output_order_witness :
    (0 : Int) < 26500 ∧ (1 ≤ 10) ∧ (0 : Int) ≤ 18000 ∧
    (((pack_bins_optimized scenarioItems 26500 18000 10).1.map Prod.fst =
        sorted_df scenarioItems) ∧
      ((pack_bins_optimized scenarioItems 26500 18000 10).2.map SummaryRow.bin =
        (List.range (runPack scenarioItems 26500 10).bins.length).map (fun k => k + 1)) ∧
      (∀ b ∈ (runPack scenarioItems 26500 10).bins, b.items ≠ [])) :=
  ⟨by decide, by decide, by decide,
    C10_output_order scenarioItems 26500 18000 10 (by decide) (by decide) (by decide)⟩

/-- C1: Conservation - under the preconditions, the item indices placed
across all bins are exactly the positions of the sorted table, each
occurring exactly once; mapping the placed indices back to items, the
multiset of items across all bins is a permutation of the input item
list, so no item is duplicated or dropped. -/
theorem C1_conservation (df : List Item) (maxW minW : Int) (maxC : Nat)
    (hW : 0 < maxW) (hC : 1 ≤ maxC) (hm : 0 ≤ minW) :
    (((runPack df maxW maxC).bins.map BinState.items).flatten).Perm
      (List.range (sorted_df df).length) ∧
    ((((runPack df maxW maxC).bins.map BinState.items).flatten).map
      (fun i => (sorted_df df).getD i dummyItem)).Perm df := by
  have inv := runPack_inv df maxW maxC hC
  refine ⟨inv.flat_perm, ?_⟩
  have h1 := inv.flat_perm.map (fun i => (sorted_df df).getD i dummyItem)
  have h2 : (List.range (sorted_df df).length).map
      (fun i => (sorted_df df).getD i dummyItem) = sorted_df df := by
    apply List.ext_getElem
    · simp
    · intro i hi1 hi2
      simp only [List.getElem_map, List.getElem_range]
      exact List.getD_eq_getElem _ _ hi2
  rw [h2] at h1
  exact h1.trans (List.perm_insertionSort sortLE df)

/-- Witness for C1 at the worked scenario. -/
theorem C1_conservation_witness :
    (0 : Int) < 26500 ∧ (1 ≤ 10) ∧ (0 : Int) ≤ 18000 ∧
    ((((runPack scenarioItems 26500 10).bins.map BinState.items).flatten).Perm
        (List.range (sorted_df scenarioItems).length) ∧
      ((((runPack scenarioItems 26500 10).bins.map BinState.items).flatten).map
        (fun i => (sorted_df scenarioItems).getD i dummyItem)).Perm scenarioItems) :=
  ⟨by decide, by decide, by decide,
    C1_conservation scenarioItems 26500 18000 10 (by decide) (by decide) (by decide)⟩

/-- C2: Capacity invariant - at every step k of the placement loop (the
state after the first k placements), every bin's item count is at most
max_items_per_bin and, when every individual item weight is at most
max_bin_weight, every bin's gross total is at most max_bin_weight; the
same holds of every row of the final summary. -/
theorem C2_capacity_invariant (df : List Item) (maxW minW : Int) (maxC : Nat)
    (hW : 0 < maxW) (hC : 1 ≤ maxC) (hm : 0 ≤ minW) :
    (∀ k, k ≤ (sorted_df df).length →
      (∀ b ∈ (packPrefix df maxW maxC k).bins, b.count ≤ maxC) ∧
      ((∀ it ∈ df, it.grossWeight ≤ maxW) →
        ∀ b ∈ (packPrefix df maxW maxC k).bins, b.gross ≤ maxW)) ∧
    (∀ row ∈ (pack_bins_optimized df maxW minW maxC).2,
      row.itemsCount ≤ maxC ∧
      ((∀ it ∈ df, it.grossWeight ≤ maxW) → row.totalGross ≤ maxW)) := by
  have hstep : ∀ k, k ≤ (sorted_df df).length →
      (∀ b ∈ (packPrefix df maxW maxC k).bins, b.count ≤ maxC) ∧
      ((∀ it ∈ df, it.grossWeight ≤ maxW) →
        ∀ b ∈ (packPrefix df maxW maxC k).bins, b.gross ≤ maxW) := by
    intro k hk
    have inv := packPrefix_inv df maxW maxC hC k hk
    refine ⟨inv.count_le, ?_⟩
    intro hall b hb
    rcases inv.cap_or_single b hb with h | h
    · exact h
    · rcases List.length_eq_one.mp h with ⟨i, hi⟩
      have hgross := inv.gross_eq b hb
      rw [hi] at hgross
      simp only [List.map_cons, List.map_nil, List.sum_cons, List.sum_nil, add_zero]
        at hgross
      have hilt : i < k := inv.mem_lt b hb i (by rw [hi]; exact List.mem_singleton_self i)
      have hlen : i < (sorted_df df).length := lt_of_lt_of_le hilt hk
      rw [List.getD_eq_getElem _ _ hlen] at hgross
      have hmem2 : (sorted_df df)[i] ∈ df :=
        (List.perm_insertionSort sortLE df).subset (List.getElem_mem hlen)
      rw [hgross]
      exact hall _ hmem2
  refine ⟨hstep, ?_⟩
  intro row hrow
  simp only [pack_bins_optimized, bin_summary, List.mem_map] at hrow
  rcases hrow with ⟨p, hp, rfl⟩
  have hp2 : p.2 ∈ (runPack df maxW maxC).bins := by
    have hsnd := List.enum_map_snd ((runPack df maxW maxC).bins)
    rw [← hsnd]
    exact List.mem_map_of_mem Prod.snd hp
  have hfin := hstep (sorted_df df).length le_rfl
  rw [runPack_eq_packPrefix] at hp2
  exact ⟨hfin.1 p.2 hp2, fun hall => hfin.2 hall p.2 hp2⟩

/-- Witness for C2 at the worked scenario, instantiated at step 2. -/
theorem C2_capacity_invariant_witness :
    (0 : Int) < 26500 ∧ (1 ≤ 10) ∧ (0 : Int) ≤ 18000 ∧ 2 ≤ (sorted_df scenarioItems).length ∧
    ((∀ b ∈ (packPrefix scenarioItems 26500 10 2).bins, b.count ≤ 10) ∧
      ((∀ it ∈ scenarioItems, it.grossWeight ≤ 26500) →
        ∀ b ∈ (packPrefix scenarioItems 26500 10 2).bins, b.gross ≤ 26500)) :=
  ⟨by decide, by decide, by decide, by decide,
    (C2_capacity_invariant scenarioItems 26500 18000 10
      (by decide) (by decide) (by decide)).1 2 (by decide)⟩

/-- C8: Totality and degenerate bins - with non-negative weights and
precondition-satisfying limits, every row of the annotated table receives
a bin number (the dictionary lookup of line 72 can never fail), and any
placed item whose gross weight exceeds max_bin_weight sits alone in its
bin: it went to a fresh bin and no later item ever joined it. -/
theorem C8_total_and_degenerate (df : List Item) (maxW minW : Int) (maxC : Nat)
    (hW : 0 < maxW) (hC : 1 ≤ maxC) (hm : 0 ≤ minW)
    (hpos : ∀ it ∈ df, 0 ≤ it.grossWeight) :
    (∀ p ∈ packed_df df maxW maxC, p.2.isSome = true) ∧
    (∀ b ∈ (runPack df maxW maxC).bins, ∀ i ∈ b.items,
      maxW < ((sorted_df df).getD i dummyItem).grossWeight → b.items = [i]) := by
  have inv := runPack_inv df maxW maxC hC
  constructor
  · intro p hp
    simp only [packed_df, List.mem_map] at hp
    rcases hp with ⟨q, hq, rfl⟩
    have hq1 : q.1 < (sorted_df df).length := by
      have := (List.mem_enumFrom hq).2.1
      simpa using this
    have hmem : q.1 ∈ ((runPack df maxW maxC).bins.map BinState.items).flatten :=
      inv.flat_perm.mem_iff.mpr (List.mem_range.mpr hq1)
    rcases List.mem_flatten.mp hmem with ⟨s, hs, hsi⟩
    rcases List.mem_map.mp hs with ⟨b, hb, rfl⟩
    rcases bin_assignment_isSome _ q.1 ⟨b, hb, hsi⟩ with ⟨v, hv⟩
    simp [hv]
  · intro b hb i hi hheavy
    rcases inv.cap_or_single b hb with h | h
    · exfalso
      have hgross := inv.gross_eq b hb
      have hnn : ∀ x ∈ b.items.map (fun j => ((sorted_df df).getD j dummyItem).grossWeight),
          0 ≤ x := by
        intro x hx
        rcases List.mem_map.mp hx with ⟨j, hj, rfl⟩
        have hjn : j < (sorted_df df).length := inv.mem_lt b hb j hj
        rw [List.getD_eq_getElem _ _ hjn]
        exact hpos _ ((List.perm_insertionSort sortLE df).subset (List.getElem_mem hjn))
      have hle := List.single_le_sum hnn _
        (List.mem_map_of_mem (fun j => ((sorted_df df).getD j dummyItem).grossWeight) hi)
      rw [← hgross] at hle
      dsimp only at hle
      omega
    · rcases List.length_eq_one.mp h with ⟨a, ha⟩
      rw [ha] at hi ⊢
      simp only [List.mem_singleton] at hi
      rw [hi]

/-- Witness for C8 on an input whose first item exceeds the bin limit. -/
theorem C8_total_and_degenerate_witness :
    (0 : Int) < 26500 ∧ (1 ≤ 10) ∧ (0 : Int) ≤ 18000 ∧
    (∀ it ∈ [(⟨0, 1, 30000, 0⟩ : Item), ⟨0, 2, 1000, 0⟩], 0 ≤ it.grossWeight) ∧
    ((∀ p ∈ packed_df [⟨0, 1, 30000, 0⟩, ⟨0, 2, 1000, 0⟩] 26500 10, p.2.isSome = true) ∧
      (∀ b ∈ (runPack [⟨0, 1, 30000, 0⟩, ⟨0, 2, 1000, 0⟩] 26500 10).bins, ∀ i ∈ b.items,
        26500 < ((sorted_df [⟨0, 1, 30000, 0⟩, ⟨0, 2, 1000, 0⟩]).getD i dummyItem).grossWeight →
          b.items = [i])) :=
  ⟨by decide, by decide, by decide, by decide,
    C8_total_and_degenerate [⟨0, 1, 30000, 0⟩, ⟨0, 2, 1000, 0⟩] 26500 18000 10
      (by decide) (by decide) (by decide) (by decide)⟩

/-- C3: Affinity preference - whenever the row's truck has a recorded bin
that can accept the row, the row is placed in exactly that bin, whatever
other candidate bins exist: only that bin changes, the truck map is left
unchanged and still names that bin, and the bin now contains the row's
index. -/
theorem C3_affinity_preference (maxW : Int) (maxC : Nat) (st : PackState)
    (index : Nat) (row : Item) (b : Nat)
    (htb : st.truck_bins row.truckNumber = some b)
    (hb : b < st.bins.length)
    (hacc : canAccept maxW row.grossWeight maxC st.bins[b]) :
    placeItem maxW maxC st index row =
      { st with bins := st.bins.set b (addToBin st.bins[b] index row) } ∧
    (placeItem maxW maxC st index row).truck_bins row.truckNumber = some b ∧
    index ∈ ((placeItem maxW maxC st index row).bins.getD b emptyBin).items := by
  have hgd : st.bins.getD b emptyBin = st.bins[b] := List.getD_eq_getElem _ _ hb
  have heqn : placeItem maxW maxC st index row =
      { st with bins := st.bins.set b (addToBin st.bins[b] index row) } := by
    rcases placeItem_cases maxW maxC st index row with
      ⟨b2, htb2, hca2, heq⟩ | ⟨j, hbf, hnaff, heq⟩ | ⟨hbf, hnaff, heq⟩
    · rw [htb] at htb2
      cases htb2
      rw [heq, hgd]
    · have hacc2 : canAccept maxW row.grossWeight maxC (st.bins.getD b emptyBin) := by
        rw [hgd]; exact hacc
      exact absurd hacc2 (hnaff b htb)
    · have hacc2 : canAccept maxW row.grossWeight maxC (st.bins.getD b emptyBin) := by
        rw [hgd]; exact hacc
      exact absurd hacc2 (hnaff b htb)
  refine ⟨heqn, ?_, ?_⟩
  · rw [heqn]
    exact htb
  · rw [heqn]
    have hb2 : b < (st.bins.set b (addToBin st.bins[b] index row)).length := by
      simpa using hb
    have hset : (st.bins.set b (addToBin st.bins[b] index row)).getD b emptyBin =
        addToBin st.bins[b] index row := by
      rw [List.getD_eq_getElem _ _ hb2]
      exact List.getElem_set_self hb2
    rw [hset]
    simp [addToBin]

/-- Witness for C3: one bin of gross 20000 recorded for truck 0, a second
truck-0 row of gross 5000 arrives and is placed in that bin. -/
theorem C3_affinity_preference_witness :
    (PackState.truck_bins ⟨[⟨[0], 20000, 0, 1⟩], fun t => if t = 0 then some 0 else none⟩
        (Item.truckNumber ⟨0, 2, 5000, 0⟩) = some 0) ∧
    (0 < 1) ∧
    canAccept 26500 (Item.grossWeight ⟨0, 2, 5000, 0⟩) 10
      ((PackState.bins ⟨[⟨[0], 20000, 0, 1⟩], fun t => if t = 0 then some 0 else none⟩)[0]) ∧
    (placeItem 26500 10 ⟨[⟨[0], 20000, 0, 1⟩], fun t => if t = 0 then some 0 else none⟩ 1
        ⟨0, 2, 5000, 0⟩ =
      { (⟨[⟨[0], 20000, 0, 1⟩], fun t => if t = 0 then some 0 else none⟩ : PackState) with
        bins := (PackState.bins
            ⟨[⟨[0], 20000, 0, 1⟩], fun t => if t = 0 then some 0 else none⟩).set 0
          (addToBin ((PackState.bins
            ⟨[⟨[0], 20000, 0, 1⟩], fun t => if t = 0 then some 0 else none⟩)[0]) 1
            ⟨0, 2, 5000, 0⟩) } ∧
      (placeItem 26500 10 ⟨[⟨[0], 20000, 0, 1⟩], fun t => if t = 0 then some 0 else none⟩ 1
          ⟨0, 2, 5000, 0⟩).truck_bins (Item.truckNumber ⟨0, 2, 5000, 0⟩) = some 0 ∧
      1 ∈ ((placeItem 26500 10
          ⟨[⟨[0], 20000, 0, 1⟩], fun t => if t = 0 then some 0 else none⟩ 1
          ⟨0, 2, 5000, 0⟩).bins.getD 0 emptyBin).items) :=
  ⟨by decide, by decide, by decide,
    C3_affinity_preference 26500 10
      ⟨[⟨[0], 20000, 0, 1⟩], fun t => if t = 0 then some 0 else none⟩ 1 ⟨0, 2, 5000, 0⟩ 0
      (by decide) (by decide) (by decide)⟩

/-- C4: Best-fit selection - when the row's truck has no recorded bin
that can accept it but at least one existing bin can, the row is placed
in the accepting bin with the smallest remaining capacity (the earliest
created among ties), and the truck map is overwritten to name that
bin. -/
theorem C4_best_fit_selection (maxW : Int) (maxC : Nat) (st : PackState)
    (index : Nat) (row : Item)
    (haff : ∀ b, st.truck_bins row.truckNumber = some b →
      ¬ canAccept maxW row.grossWeight maxC (st.bins.getD b emptyBin))
    (hex : ∃ m, ∃ hm : m < st.bins.length, canAccept maxW row.grossWeight maxC st.bins[m]) :
    ∃ j, ∃ hj : j < st.bins.length,
      best_fit_bin maxW row.grossWeight maxC st.bins = some j ∧
      canAccept maxW row.grossWeight maxC st.bins[j] ∧
      (∀ m, (hm : m < st.bins.length) → canAccept maxW row.grossWeight maxC st.bins[m] →
        maxW - st.bins[j].gross ≤ maxW - st.bins[m].gross) ∧
      (∀ m, (hm : m < st.bins.length) → canAccept maxW row.grossWeight maxC st.bins[m] →
        maxW - st.bins[m].gross = maxW - st.bins[j].gross → j ≤ m) ∧
      placeItem maxW maxC st index row =
        { bins := st.bins.set j (addToBin st.bins[j] index row)
          truck_bins := fun t => if t = row.truckNumber then some j else st.truck_bins t } := by
  cases hbf : best_fit_bin maxW row.grossWeight maxC st.bins with
  | none =>
      exfalso
      rcases hex with ⟨m, hm, hca⟩
      exact best_fit_bin_eq_none maxW row.grossWeight maxC st.bins hbf m hm hca
  | some j =>
      obtain ⟨hj, hcaj, hmin, htie⟩ :=
        best_fit_bin_eq_some maxW row.grossWeight maxC st.bins j hbf
      refine ⟨j, hj, rfl, hcaj, hmin, htie, ?_⟩
      rcases placeItem_cases maxW maxC st index row with
        ⟨b2, htb2, hca2, heq⟩ | ⟨j2, hbf2, hnaff, heq⟩ | ⟨hbf2, hnaff, heq⟩
      · exact absurd hca2 (haff b2 htb2)
      · have hjj : j2 = j := by
          have := hbf.symm.trans hbf2
          injection this with h
          exact h.symm
        subst hjj
        rw [heq, List.getD_eq_getElem _ _ hj]
      · rw [hbf2] at hbf
        cases hbf

/-- Witness for C4: two bins of gross 20000 and 10000, an unseen truck
brings a row of gross 3000; the fuller bin 0 wins. -/
theorem C4_best_fit_selection_witness :
    (∃ m, ∃ hm : m < (PackState.bins
        ⟨[⟨[0], 20000, 0, 1⟩, ⟨[1], 10000, 0, 1⟩], fun t => none⟩).length,
      canAccept 26500 (Item.grossWeight ⟨5, 9, 3000, 0⟩) 10
        ((PackState.bins ⟨[⟨[0], 20000, 0, 1⟩, ⟨[1], 10000, 0, 1⟩], fun t => none⟩)[m])) ∧
    (∃ j, ∃ hj : j < (PackState.bins
        ⟨[⟨[0], 20000, 0, 1⟩, ⟨[1], 10000, 0, 1⟩], fun t => none⟩).length,
      best_fit_bin 26500 (Item.grossWeight ⟨5, 9, 3000, 0⟩) 10
        (PackState.bins ⟨[⟨[0], 20000, 0, 1⟩, ⟨[1], 10000, 0, 1⟩], fun t => none⟩) = some j ∧
      canAccept 26500 (Item.grossWeight ⟨5, 9, 3000, 0⟩) 10
        ((PackState.bins ⟨[⟨[0], 20000, 0, 1⟩, ⟨[1], 10000, 0, 1⟩], fun t => none⟩)[j]) ∧
      (∀ m, (hm : m < (PackState.bins
          ⟨[⟨[0], 20000, 0, 1⟩, ⟨[1], 10000, 0, 1⟩], fun t => none⟩).length) →
        canAccept 26500 (Item.grossWeight ⟨5, 9, 3000, 0⟩) 10
          ((PackState.bins ⟨[⟨[0], 20000, 0, 1⟩, ⟨[1], 10000, 0, 1⟩], fun t => none⟩)[m]) →
        26500 - ((PackState.bins
            ⟨[⟨[0], 20000, 0, 1⟩, ⟨[1], 10000, 0, 1⟩], fun t => none⟩)[j]).gross ≤
          26500 - ((PackState.bins
            ⟨[⟨[0], 20000, 0, 1⟩, ⟨[1], 10000, 0, 1⟩], fun t => none⟩)[m]).gross) ∧
      (∀ m, (hm : m < (PackState.bins
          ⟨[⟨[0], 20000, 0, 1⟩, ⟨[1], 10000, 0, 1⟩], fun t => none⟩).length) →
        canAccept 26500 (Item.grossWeight ⟨5, 9, 3000, 0⟩) 10
          ((PackState.bins ⟨[⟨[0], 20000, 0, 1⟩, ⟨[1], 10000, 0, 1⟩], fun t => none⟩)[m]) →
        26500 - ((PackState.bins
            ⟨[⟨[0], 20000, 0, 1⟩, ⟨[1], 10000, 0, 1⟩], fun t => none⟩)[m]).gross =
          26500 - ((PackState.bins
            ⟨[⟨[0], 20000, 0, 1⟩, ⟨[1], 10000, 0, 1⟩], fun t => none⟩)[j]).gross → j ≤ m) ∧
      placeItem 26500 10 ⟨[⟨[0], 20000, 0, 1⟩, ⟨[1], 10000, 0, 1⟩], fun t => none⟩ 2
          ⟨5, 9, 3000, 0⟩ =
        { bins := (PackState.bins
              ⟨[⟨[0], 20000, 0, 1⟩, ⟨[1], 10000, 0, 1⟩], fun t => none⟩).set j
            (addToBin ((PackState.bins
              ⟨[⟨[0], 20000, 0, 1⟩, ⟨[1], 10000, 0, 1⟩], fun t => none⟩)[j]) 2 ⟨5, 9, 3000, 0⟩)
          truck_bins := fun t => if t = Item.truckNumber ⟨5, 9, 3000, 0⟩ then some j
            else PackState.truck_bins
              ⟨[⟨[0], 20000, 0, 1⟩, ⟨[1], 10000, 0, 1⟩], fun t => none⟩ t }) :=
  ⟨⟨0, by decide, by decide⟩,
    C4_best_fit_selection 26500 10
      ⟨[⟨[0], 20000, 0, 1⟩, ⟨[1], 10000, 0, 1⟩], fun t => none⟩ 2 ⟨5, 9, 3000, 0⟩
      (fun b hb => Option.noConfusion hb) ⟨0, by decide, by decide⟩⟩
